import Mathlib

/-!
The command-line layer of craftc (`main.go`).

A shallow embedding of `main.go` of craftc: the argument filter `filterArgs`,
the command table built in `main`, the four subcommand actions, `runCmd` and the
tail of `main`.

Go strings are modelled by Lean strings (valid UTF-8 text), Go slices by lists, and
the Go `map[string]bool` by an association list that is searched from the most
recent write.  Writes to standard error and `os.Exit` are made explicit in the
result of the functions that perform them.
-/

namespace Craftc

/-! ## Strings -/

/-- Go's `strings.HasPrefix(s, pre)`: `s` begins with `pre`. -/
def HasPrefix (s pre : String) : Bool :=
  pre.data.isPrefixOf s.data

/-- Go's `strings.TrimLeft(s, cutset)`: `s` without its leading characters that occur
in `cutset`. -/
def TrimLeft (s cutset : String) : String :=
  String.mk (s.data.dropWhile (fun c => cutset.data.contains c))

/-! ## The part of the CLI library that `main.go` reads -/

/-- The dynamic type of a `cli.Flag` value, as far as the type switch of `filterArgs`
tells flags apart: `*cli.BoolFlag`, `*cli.StringFlag`, or any other flag type. -/
inductive FlagKind where
  | BoolFlag
  | StringFlag
  | OtherFlag
  deriving DecidableEq, Repr

/-- A flag declaration: the fields `Name`, `Aliases` and `Required` of the literal. -/
structure Flag where
  kind : FlagKind
  Name : String
  Aliases : List String
  Required : Bool
  deriving DecidableEq, Repr

/-- The library's `commaWhitespace.ReplaceAllString(part, "")`, with `commaWhitespace`
the regular expression `[, ]+.*`: on every line of `part`, what stands from the first
comma or space to the end of the line is removed. The boolean says that the scan is
inside a match. -/
def cutCommaWhitespace : Bool → List Char → List Char
  | _, [] => []
  | true, c :: cs =>
    if c = '\n' then c :: cutCommaWhitespace false cs else cutCommaWhitespace true cs
  | false, c :: cs =>
    if c = ',' ∨ c = ' ' then cutCommaWhitespace true cs
    else c :: cutCommaWhitespace false cs

/-- The library's `FlagNames(name, aliases)`: the name and the aliases, each one cut by
`commaWhitespace`. -/
def FlagNames (name : String) (aliases : List String) : List String :=
  (name :: aliases).map (fun part => String.mk (cutCommaWhitespace false part.data))

/-- The method `Names()` of a flag, which the library defines as
`FlagNames(f.Name, f.Aliases)`. -/
def Flag.Names (f : Flag) : List String :=
  FlagNames f.Name f.Aliases

/-- A subcommand of the root command: the fields `Name` and `Flags` that `filterArgs`
reads from each element of `cmd.Commands`. -/
structure SubCommand where
  Name : String
  Flags : List Flag
  deriving DecidableEq, Repr

/-- The root `cli.Command`: its `Name`, its global `Flags` and its `Commands`. -/
structure Command where
  Name : String
  Flags : List Flag
  Commands : List SubCommand
  deriving DecidableEq, Repr

/-! ## The Go map of recognised names -/

/-- A `map[string]bool`: the list of writes, most recent first. -/
abbrev NameMap := List (String × Bool)

/-- The assignment `m[k] = v`. -/
def NameMap.set (m : NameMap) (k : String) (v : Bool) : NameMap :=
  (k, v) :: m

/-- The two-valued lookup `v, ok := m[k]`: `none` when `ok` is false. -/
def NameMap.get (m : NameMap) (k : String) : Option Bool :=
  List.lookup k m

/-- Lines 38-47 of `filterArgs`: the map `filterArgs` and the slice `allFlags` after the
loops over `cmd.Flags` and `cmd.Commands`; every subcommand name is entered with the
value `false`, and the flags of the command and of every subcommand are appended. -/
def collectFlags (cmd : Command) : NameMap × List Flag :=
  cmd.Commands.foldl
    (fun st c => (st.1.set c.Name false, c.Flags.foldl (fun acc f => acc ++ [f]) st.2))
    (([] : NameMap), cmd.Flags.foldl (fun acc f => acc ++ [f]) ([] : List Flag))

/-- Lines 49-60 of `filterArgs`: the type switch on one flag; a boolean flag enters its
names with `false` (does not expect a value), any other flag with `true`. -/
def flagEntries (m : NameMap) (f : Flag) : NameMap :=
  match f.kind with
  | FlagKind.BoolFlag => f.Names.foldl (fun m2 k => m2.set k false) m
  | _ => f.Names.foldl (fun m2 k => m2.set k true) m

/-- The map `filterArgs` as it stands when the filter loop starts (lines 31-60). -/
def buildFilter (cmd : Command) : NameMap :=
  (collectFlags cmd).2.foldl flagEntries (collectFlags cmd).1

/-! ## The filter loop -/

/-- The variables the filter loop changes: `skip`, `finalArgs`, and the arguments that
were reported on standard error by an `Ignoring unknown arg` warning, in order. -/
structure LoopState where
  skip : Bool
  finalArgs : List String
  stderr : List String
  deriving DecidableEq, Repr

/-- One iteration of `for i, arg := range argsTmp` (lines 63-95). -/
def loopBody (filter : NameMap) (verbose : Bool) (argsTmp : List String)
    (st : LoopState) (ia : Nat × String) : LoopState :=
  let i := ia.1
  let arg := ia.2
  if st.skip then
    { st with skip := false }
  else if HasPrefix arg "-" then
    let trimmedArg := TrimLeft arg "-"
    match filter.get trimmedArg with
    | some expectValue =>
      let st1 : LoopState := { st with finalArgs := st.finalArgs ++ [arg] }
      if expectValue then
        let st2 : LoopState :=
          if h : i + 1 < argsTmp.length then
            { st1 with finalArgs := st1.finalArgs ++ [argsTmp[i + 1]] }
          else st1
        { st2 with skip := true }
      else st1
    | none =>
      if verbose then { st with stderr := st.stderr ++ [arg] } else st
  else
    match filter.get arg with
    | some _ => { st with finalArgs := st.finalArgs ++ [arg] }
    | none =>
      if verbose then { st with stderr := st.stderr ++ [arg] } else st

/-- The function `filterArgs` with its writes to standard error: `none` is the run-time
panic of `args[0]` on an empty slice. -/
def filterArgsRun (args : List String) (cmd : Command) (verbose : Bool) :
    Option LoopState :=
  match args with
  | [] => none
  | a0 :: argsTmp =>
    some (argsTmp.enum.foldl (loopBody (buildFilter cmd) verbose argsTmp)
      { skip := false, finalArgs := [a0], stderr := [] })

/-- The slice returned by `filterArgs(args, cmd, verbose)`. -/
def filterArgs (args : List String) (cmd : Command) (verbose : Bool) :
    Option (List String) :=
  (filterArgsRun args cmd verbose).map (fun st => st.finalArgs)

/-- The warnings `filterArgs(args, cmd, verbose)` writes to standard error: the reported
arguments, in order. -/
def filterArgsWarnings (args : List String) (cmd : Command) (verbose : Bool) :
    Option (List String) :=
  (filterArgsRun args cmd verbose).map (fun st => st.stderr)

/-! ## The command table of `main` -/

/-- The common flag `ccFlag`. -/
def ccFlag : Flag :=
  { kind := FlagKind.StringFlag, Name := "cc", Aliases := [], Required := true }

/-- The common flag `cflagsFlag`. -/
def cflagsFlag : Flag :=
  { kind := FlagKind.StringFlag, Name := "cflags", Aliases := [], Required := false }

/-- The common flag `objdirFlag`. -/
def objdirFlag : Flag :=
  { kind := FlagKind.StringFlag, Name := "objdir", Aliases := [], Required := true }

/-- The common flag `cfilesFlag`. -/
def cfilesFlag : Flag :=
  { kind := FlagKind.StringFlag, Name := "cfiles", Aliases := [], Required := true }

/-- The value `cmd` built at the start of `main` (lines 101-228), without usage texts
and actions. -/
def craftc : Command :=
  { Name := "craftc"
    Flags :=
      [ { kind := FlagKind.BoolFlag, Name := "v", Aliases := ["verbose"], Required := false },
        { kind := FlagKind.BoolFlag, Name := "i", Aliases := ["ignore"], Required := false },
        { kind := FlagKind.BoolFlag, Name := "f", Aliases := ["force"], Required := false } ]
    Commands :=
      [ { Name := "obj"
          Flags :=
            [ ccFlag, objdirFlag, cflagsFlag,
              { kind := FlagKind.StringFlag, Name := "cfile", Aliases := [],
                Required := true } ] },
        { Name := "objs"
          Flags := [ ccFlag, cfilesFlag, objdirFlag, cflagsFlag ] },
        { Name := "static-lib"
          Flags :=
            [ ccFlag, cfilesFlag, objdirFlag, cflagsFlag,
              { kind := FlagKind.StringFlag, Name := "lib-path", Aliases := [],
                Required := true } ] },
        { Name := "exe"
          Flags :=
            [ ccFlag, cfilesFlag, objdirFlag, cflagsFlag,
              { kind := FlagKind.StringFlag, Name := "exe-path", Aliases := [],
                Required := true },
              { kind := FlagKind.StringFlag, Name := "lib-paths", Aliases := [],
                Required := false },
              { kind := FlagKind.StringFlag, Name := "ldflags", Aliases := [],
                Required := false } ] } ] }

/-! ## A declarative description of the filter loop -/

/-- What the loop does with an argument it does not skip: `none` when it is dropped,
`some true` when it is kept and the next argument is taken as its value, `some false`
when it is kept alone. -/
def classify (m : NameMap) (arg : String) : Option Bool :=
  if HasPrefix arg "-" then m.get (TrimLeft arg "-")
  else (m.get arg).map (fun _ => false)

/-- For every position of the argument list, whether the argument there reaches the
result; the boolean parameter says that the first position is the value of a flag. -/
def keepMask (m : NameMap) : Bool → List String → List Bool
  | _, [] => []
  | true, _ :: rest => true :: keepMask m false rest
  | false, arg :: rest =>
    match classify m arg with
    | none => false :: keepMask m false rest
    | some expectValue => true :: keepMask m expectValue rest

/-- The elements of a list at the positions where the mask has the value `b`. -/
def pick (b : Bool) : List Bool → List String → List String
  | k :: ks, a :: as => if k = b then a :: pick b ks as else pick b ks as
  | _, _ => []

/-- The arguments that are kept. -/
def kept (m : NameMap) (s : Bool) (l : List String) : List String :=
  pick true (keepMask m s l) l

/-- The arguments that are dropped. -/
def dropped (m : NameMap) (s : Bool) (l : List String) : List String :=
  pick false (keepMask m s l) l

/-! ## Declared names and argument lists without unknown arguments -/

/-- The flags declared on `cmd` or on one of its subcommands. -/
def declaredFlags (cmd : Command) : List Flag :=
  cmd.Flags ++ cmd.Commands.flatMap (fun c => c.Flags)

/-- The names and aliases of the declared boolean flags, as they are declared. -/
def boolFlagNames (cmd : Command) : List String :=
  ((declaredFlags cmd).filter (fun f => f.kind = FlagKind.BoolFlag)).flatMap
    (fun f => f.Name :: f.Aliases)

/-- The names and aliases of the declared value-taking (non-boolean) flags, as they are
declared. -/
def valueFlagNames (cmd : Command) : List String :=
  ((declaredFlags cmd).filter (fun f => f.kind ≠ FlagKind.BoolFlag)).flatMap
    (fun f => f.Name :: f.Aliases)

/-- The names of the declared boolean flags as `Names()` returns them. -/
def boolFlagKeys (cmd : Command) : List String :=
  ((declaredFlags cmd).filter (fun f => f.kind = FlagKind.BoolFlag)).flatMap Flag.Names

/-- The names of the declared value-taking flags as `Names()` returns them. -/
def valueFlagKeys (cmd : Command) : List String :=
  ((declaredFlags cmd).filter (fun f => f.kind ≠ FlagKind.BoolFlag)).flatMap Flag.Names

/-- The names of the subcommands. -/
def commandNames (cmd : Command) : List String :=
  cmd.Commands.map (fun c => c.Name)

/-- No name is declared both as a value-taking flag and as a boolean flag or
subcommand. -/
def NoClash (cmd : Command) : Prop :=
  ∀ n ∈ valueFlagNames cmd, n ∉ boolFlagNames cmd ∧ n ∉ commandNames cmd

/-- No declared flag name, alias or subcommand name begins with a dash. -/
def NoDashName (cmd : Command) : Prop :=
  ∀ n ∈ valueFlagNames cmd ++ boolFlagNames cmd ++ commandNames cmd, HasPrefix n "-" = false

/-- No declared flag name or alias contains a comma or a space. -/
def NoCommaSpaceName (cmd : Command) : Prop :=
  ∀ n ∈ valueFlagNames cmd ++ boolFlagNames cmd, ∀ c ∈ n.data, c ≠ ',' ∧ c ≠ ' '

instance (cmd : Command) : Decidable (NoCommaSpaceName cmd) := by
  unfold NoCommaSpaceName; infer_instance

instance (cmd : Command) : Decidable (NoClash cmd) := by
  unfold NoClash; infer_instance

instance (cmd : Command) : Decidable (NoDashName cmd) := by
  unfold NoDashName; infer_instance

/-- The argument lists in which every element is a declared boolean flag behind `-` or
`--`, a declared value-taking flag behind `-` or `--` followed by its value (any string;
the value is missing only when the flag is the last element), or a subcommand name. -/
inductive Recognized (cmd : Command) : List String → Prop where
  | done : Recognized cmd []
  | boolFlag (d n : String) (rest : List String) :
      d = "-" ∨ d = "--" → n ∈ boolFlagNames cmd → Recognized cmd rest →
      Recognized cmd ((d ++ n) :: rest)
  | valueFlag (d n value : String) (rest : List String) :
      d = "-" ∨ d = "--" → n ∈ valueFlagNames cmd → Recognized cmd rest →
      Recognized cmd ((d ++ n) :: value :: rest)
  | valueFlagLast (d n : String) :
      d = "-" ∨ d = "--" → n ∈ valueFlagNames cmd → Recognized cmd [d ++ n]
  | command (n : String) (rest : List String) :
      n ∈ commandNames cmd → Recognized cmd rest → Recognized cmd (n :: rest)

/-- A command definition whose only flag is a boolean flag named `a b`. -/
def spaceNamed : Command :=
  { Name := "tool"
    Flags := [ { kind := FlagKind.BoolFlag, Name := "a b", Aliases := [], Required := false } ]
    Commands := [] }

/-- A command definition whose only flag is a boolean flag named `-x`. -/
def dashNamed : Command :=
  { Name := "tool"
    Flags := [ { kind := FlagKind.BoolFlag, Name := "-x", Aliases := [], Required := false } ]
    Commands := [] }

/-! ## The subcommand actions, `runCmd` and the end of `main` -/

/-- A `context.Context` value, handed through unchanged. -/
structure Context where
  id : Nat
  deriving DecidableEq, Repr

/-- The parsed command an action receives: the accessors `cmd.String(name)` and
`cmd.Bool(name)`. -/
structure ParsedCommand where
  StringOf : String → String
  BoolOf : String → Bool

/-- The fields the `obj` action sets in the struct `object`. -/
structure object where
  ctx : Context
  cc : String
  cfile : String
  objdir : String
  cflags : String
  forceBuild : Bool
  deriving DecidableEq, Repr

/-- The fields the `objs` action sets in the struct `objects`. -/
structure objects where
  ctx : Context
  cc : String
  cfiles : String
  objdir : String
  cflags : String
  forceBuild : Bool
  deriving DecidableEq, Repr

/-- The fields the `static-lib` action sets in the struct `staticLib`. -/
structure staticLib where
  ctx : Context
  cc : String
  cfiles : String
  objdir : String
  cflags : String
  libPath : String
  forceBuild : Bool
  deriving DecidableEq, Repr

/-- The fields the `exe` action sets in the struct `executable`. -/
structure executable where
  ctx : Context
  cc : String
  cfiles : String
  objdir : String
  cflags : String
  ldflags : String
  exePath : String
  libPaths : String
  forceBuild : Bool
  deriving DecidableEq, Repr

/-- The interface `Cmd`: one of the four command values. -/
inductive Cmd where
  | obj (c : object)
  | objs (c : objects)
  | sl (c : staticLib)
  | exe (c : executable)
  deriving DecidableEq, Repr

/-- How a piece of code ends: it returns a value, it calls `os.Exit(status)`, or it
panics at run time. -/
inductive Outcome (α : Type) where
  | returned (a : α)
  | exited (status : Nat)
  | panicked
  deriving DecidableEq, Repr

/-- What a piece of code did and how it ended: the calls of `setVerbose`, the command
values whose `run` method was called, the texts written to standard error, all in
order, and the outcome. -/
structure Run (α : Type) where
  verboseCalls : List Bool
  ran : List Cmd
  stderr : List String
  outcome : Outcome α
  deriving DecidableEq, Repr

/-- The function `runCmd` (lines 22-28). The parameter `run` gives the error of
`cmd.run()`, `none` for `nil` and otherwise the text that `%v` prints; `osArgs` is
`os.Args`, whose elements 0 and 1 the failure line reads. -/
def runCmd (run : Cmd → Option String) (osArgs : List String) (cmd : Cmd) : Run Unit :=
  match run cmd with
  | some err =>
    match osArgs with
    | a0 :: a1 :: _ =>
      { verboseCalls := [], ran := [cmd],
        stderr := ["❌ " ++ a0 ++ ": cmd `" ++ a1 ++ "` failed: " ++ err ++ "\n"],
        outcome := Outcome.exited 1 }
    | _ => { verboseCalls := [], ran := [cmd], stderr := [], outcome := Outcome.panicked }
  | none =>
    { verboseCalls := [], ran := [cmd], stderr := [], outcome := Outcome.returned () }

/-- The common shape of the four actions: `setVerbose(cmd.Bool("v"))`, then `runCmd` on
the command value, then `return nil`. -/
def actionOf (run : Cmd → Option String) (osArgs : List String) (cmd : ParsedCommand)
    (value : Cmd) : Run (Option String) :=
  let r := runCmd run osArgs value
  { verboseCalls := cmd.BoolOf "v" :: r.verboseCalls, ran := r.ran, stderr := r.stderr,
    outcome :=
      match r.outcome with
      | Outcome.returned _ => Outcome.returned none
      | Outcome.exited status => Outcome.exited status
      | Outcome.panicked => Outcome.panicked }

/-- The action of `obj` (lines 136-148). -/
def objAction (run : Cmd → Option String) (osArgs : List String) (ctx : Context)
    (cmd : ParsedCommand) : Run (Option String) :=
  actionOf run osArgs cmd
    (Cmd.obj
      { ctx := ctx
        cc := cmd.StringOf "cc"
        cfile := cmd.StringOf "cfile"
        objdir := cmd.StringOf "objdir"
        cflags := cmd.StringOf "cflags"
        forceBuild := cmd.BoolOf "f" })

/-- The action of `objs` (lines 159-171). -/
def objsAction (run : Cmd → Option String) (osArgs : List String) (ctx : Context)
    (cmd : ParsedCommand) : Run (Option String) :=
  actionOf run osArgs cmd
    (Cmd.objs
      { ctx := ctx
        cc := cmd.StringOf "cc"
        cfiles := cmd.StringOf "cfiles"
        objdir := cmd.StringOf "objdir"
        cflags := cmd.StringOf "cflags"
        forceBuild := cmd.BoolOf "f" })

/-- The action of `static-lib` (lines 183-196). -/
def staticLibAction (run : Cmd → Option String) (osArgs : List String) (ctx : Context)
    (cmd : ParsedCommand) : Run (Option String) :=
  actionOf run osArgs cmd
    (Cmd.sl
      { ctx := ctx
        cc := cmd.StringOf "cc"
        cfiles := cmd.StringOf "cfiles"
        objdir := cmd.StringOf "objdir"
        cflags := cmd.StringOf "cflags"
        libPath := cmd.StringOf "lib-path"
        forceBuild := cmd.BoolOf "f" })

/-- The action of `exe` (lines 210-225). -/
def exeAction (run : Cmd → Option String) (osArgs : List String) (ctx : Context)
    (cmd : ParsedCommand) : Run (Option String) :=
  actionOf run osArgs cmd
    (Cmd.exe
      { ctx := ctx
        cc := cmd.StringOf "cc"
        cfiles := cmd.StringOf "cfiles"
        objdir := cmd.StringOf "objdir"
        cflags := cmd.StringOf "cflags"
        ldflags := cmd.StringOf "ldflags"
        exePath := cmd.StringOf "exe-path"
        libPaths := cmd.StringOf "lib-paths"
        forceBuild := cmd.BoolOf "f" })

/-- The end of `main` (lines 247-250), given what `cmd.Run(context.Background(), args)`
did: an error it returns is printed and the process exits with status 1. -/
def mainEnd (parserRun : Run (Option String)) : Run Unit :=
  match parserRun.outcome with
  | Outcome.returned (some err) =>
    { verboseCalls := parserRun.verboseCalls, ran := parserRun.ran,
      stderr := parserRun.stderr ++ ["❌ " ++ err ++ "\n"], outcome := Outcome.exited 1 }
  | Outcome.returned none =>
    { verboseCalls := parserRun.verboseCalls, ran := parserRun.ran,
      stderr := parserRun.stderr, outcome := Outcome.returned () }
  | Outcome.exited status =>
    { verboseCalls := parserRun.verboseCalls, ran := parserRun.ran,
      stderr := parserRun.stderr, outcome := Outcome.exited status }
  | Outcome.panicked =>
    { verboseCalls := parserRun.verboseCalls, ran := parserRun.ran,
      stderr := parserRun.stderr, outcome := Outcome.panicked }

/-- The exit status of the process when `main` ends with the given outcome: 0 when
`main` returns, the argument of `os.Exit`, and 2 for a panic. -/
def exitStatus (o : Outcome Unit) : Nat :=
  match o with
  | Outcome.returned _ => 0
  | Outcome.exited status => status
  | Outcome.panicked => 2

/-- Whether subcommand `sub` of `cmd` declares a flag with the name `flag`, and if so
the value of its field `Required`. -/
def requiredOf (cmd : Command) (sub flag : String) : Option Bool :=
  match cmd.Commands.find? (fun c => c.Name == sub) with
  | none => none
  | some c =>
    match c.Flags.find? (fun f => f.Names.contains flag) with
    | none => none
    | some f => some f.Required

/-! ## The staleness rule of the core -/

/-- Modelled from the spec: the error `isStale` can fail with (section 7); the core
that holds the staleness checker is not part of `main.go`. -/
inductive StaleError where
  | MissingInputError
  deriving DecidableEq, Repr

/-- Modelled from the spec: the filesystem as the staleness checker probes it, the
modification time of every path that exists. -/
abbrev FileTimes := String → Option Int

/-- Modelled from the spec: `StalenessChecker.isStale(output, inputs, force)` of section
4.1, which is not part of `main.go`. With `force` the result is stale; else a missing
input is an error, a missing output is stale, and else the output is fresh exactly when
its modification time is `>=` the maximum modification time among the inputs. -/
def isStale (fs : FileTimes) (output : String) (inputs : List String) (force : Bool) :
    Except StaleError Bool :=
  if force then Except.ok true
  else if inputs.any (fun i => (fs i).isNone) then
    Except.error StaleError.MissingInputError
  else
    match fs output with
    | none => Except.ok true
    | some tOut =>
      match (inputs.filterMap fs).max? with
      | none => Except.ok false
      | some tMax => Except.ok (!(decide (tOut ≥ tMax)))

/-- A filesystem with the files `a.c` (time 10), `b.c` (time 20) and `out.o` (time 20). -/
def sampleTimes : FileTimes := fun path =>
  if path = "a.c" then some 10
  else if path = "b.c" then some 20
  else if path = "out.o" then some 20
  else none

/-! ## The filter loop computes the kept and the dropped arguments -/

theorem keepMask_length (m : NameMap) (l : List String) :
    ∀ s : Bool, (keepMask m s l).length = l.length := by
  induction l with
  | nil => intro s; cases s <;> rfl
  | cons a rest ih =>
    intro s
    cases s
    · unfold keepMask
      cases classify m a <;> simp [ih]
    · simp [keepMask, ih]

theorem kept_nil (m : NameMap) (s : Bool) : kept m s [] = [] := by
  cases s <;> rfl

theorem dropped_nil (m : NameMap) (s : Bool) : dropped m s [] = [] := by
  cases s <;> rfl

theorem kept_value (m : NameMap) (a : String) (rest : List String) :
    kept m true (a :: rest) = a :: kept m false rest := by
  simp [kept, keepMask, pick]

theorem dropped_value (m : NameMap) (a : String) (rest : List String) :
    dropped m true (a :: rest) = dropped m false rest := by
  simp [dropped, keepMask, pick]

theorem kept_none (m : NameMap) (a : String) (rest : List String)
    (h : classify m a = none) : kept m false (a :: rest) = kept m false rest := by
  simp [kept, keepMask, pick, h]

theorem kept_some (m : NameMap) (a : String) (rest : List String) (b : Bool)
    (h : classify m a = some b) : kept m false (a :: rest) = a :: kept m b rest := by
  simp [kept, keepMask, pick, h]

theorem dropped_none (m : NameMap) (a : String) (rest : List String)
    (h : classify m a = none) : dropped m false (a :: rest) = a :: dropped m false rest := by
  simp [dropped, keepMask, pick, h]

theorem dropped_some (m : NameMap) (a : String) (rest : List String) (b : Bool)
    (h : classify m a = some b) : dropped m false (a :: rest) = dropped m b rest := by
  simp [dropped, keepMask, pick, h]

/-- The guarded index access `argsTmp[i+1]` of line 77-79 reads the head of the
arguments that follow position `i`. -/
theorem next_elem (pre rest argsTmp : List String) (a : String)
    (h : argsTmp = pre ++ a :: rest) (st1 : LoopState) :
    (if h2 : pre.length + 1 < argsTmp.length then
        ({ st1 with finalArgs := st1.finalArgs ++ [argsTmp[pre.length + 1]] } : LoopState)
      else st1)
      = { st1 with finalArgs := st1.finalArgs ++ rest.head?.toList } := by
  subst h
  cases rest with
  | nil => simp
  | cons v rest2 => simp [List.getElem_append_right]

/-- One iteration of the loop, in terms of `classify`. -/
theorem loopBody_eq (m : NameMap) (v : Bool) (pre rest argsTmp : List String) (a : String)
    (h : argsTmp = pre ++ a :: rest) (st : LoopState) :
    loopBody m v argsTmp st (pre.length, a) =
      if st.skip then { st with skip := false }
      else match classify m a with
        | none => if v then { st with stderr := st.stderr ++ [a] } else st
        | some true =>
          { skip := true, finalArgs := st.finalArgs ++ [a] ++ rest.head?.toList,
            stderr := st.stderr }
        | some false => { st with finalArgs := st.finalArgs ++ [a] } := by
  unfold loopBody classify
  simp only []
  by_cases hs : st.skip = true
  · simp [hs]
  · simp only [hs, if_false, Bool.false_eq_true]
    by_cases hp : HasPrefix a "-" = true
    · simp only [hp, if_true]
      cases hg : NameMap.get m (TrimLeft a "-") with
      | none => simp
      | some b =>
        cases b with
        | false => simp
        | true =>
          have hn := next_elem pre rest argsTmp a h
            { skip := false, finalArgs := st.finalArgs ++ [a], stderr := st.stderr }
          simp only [if_true]
          rw [hn]
    · simp only [hp, if_false, Bool.false_eq_true]
      cases hg : NameMap.get m a with
      | none => simp
      | some b => simp

/-- The filter loop from position `pre.length` on: what it appends to `finalArgs` and
to standard error. -/
theorem loop_spec (m : NameMap) (v : Bool) (argsTmp : List String) :
    ∀ (suf pre : List String) (st : LoopState), argsTmp = pre ++ suf →
      ((suf.enumFrom pre.length).foldl (loopBody m v argsTmp) st).finalArgs =
          st.finalArgs ++ (if st.skip then kept m false suf.tail else kept m false suf) ∧
      ((suf.enumFrom pre.length).foldl (loopBody m v argsTmp) st).stderr =
          st.stderr ++
            (if v then (if st.skip then dropped m false suf.tail else dropped m false suf)
              else []) := by
  intro suf
  induction suf with
  | nil =>
    intro pre st _
    simp [kept_nil, dropped_nil]
  | cons a rest ih =>
    intro pre st h
    have h2 : argsTmp = (pre ++ [a]) ++ rest := by simp [h]
    have hi := ih (pre ++ [a]) (loopBody m v argsTmp st (pre.length, a)) h2
    simp only [List.length_append, List.length_singleton] at hi
    rw [List.enumFrom_cons, List.foldl_cons, hi.1, hi.2,
      loopBody_eq m v pre rest argsTmp a h st]
    by_cases hs : st.skip = true
    · simp [hs]
    · cases hc : classify m a with
      | none =>
        cases v <;> simp [hs, kept_none, dropped_none, hc]
      | some b =>
        cases b with
        | false => simp [hs, kept_some m a rest false hc, dropped_some m a rest false hc]
        | true =>
          cases rest with
          | nil =>
            simp [hs, kept_some m a [] true hc, dropped_some m a [] true hc, kept_nil,
              dropped_nil]
          | cons w rest2 =>
            simp [hs, kept_some m a (w :: rest2) true hc,
              dropped_some m a (w :: rest2) true hc, kept_value, dropped_value]

/-- The result of `filterArgs` is the program name followed by the kept arguments, and
its warnings are the dropped arguments when `verbose` is set. -/
theorem filterArgsRun_eq (a0 : String) (argsTmp : List String) (cmd : Command)
    (verbose : Bool) :
    ∃ st, filterArgsRun (a0 :: argsTmp) cmd verbose = some st ∧
      st.finalArgs = a0 :: kept (buildFilter cmd) false argsTmp ∧
      st.stderr = (if verbose then dropped (buildFilter cmd) false argsTmp else []) := by
  refine ⟨_, rfl, ?_, ?_⟩
  · have h := (loop_spec (buildFilter cmd) verbose argsTmp argsTmp []
      { skip := false, finalArgs := [a0], stderr := [] } rfl).1
    simpa [List.enum] using h
  · have h := (loop_spec (buildFilter cmd) verbose argsTmp argsTmp []
      { skip := false, finalArgs := [a0], stderr := [] } rfl).2
    simpa [List.enum] using h

theorem filterArgs_eq (a0 : String) (argsTmp : List String) (cmd : Command)
    (verbose : Bool) :
    filterArgs (a0 :: argsTmp) cmd verbose
      = some (a0 :: kept (buildFilter cmd) false argsTmp) := by
  obtain ⟨st, h1, h2, _⟩ := filterArgsRun_eq a0 argsTmp cmd verbose
  simp [filterArgs, h1, h2]

theorem filterArgsWarnings_eq (a0 : String) (argsTmp : List String) (cmd : Command)
    (verbose : Bool) :
    filterArgsWarnings (a0 :: argsTmp) cmd verbose
      = some (if verbose then dropped (buildFilter cmd) false argsTmp else []) := by
  obtain ⟨st, h1, _, h3⟩ := filterArgsRun_eq a0 argsTmp cmd verbose
  simp [filterArgsWarnings, h1, h3]

/-! ## Properties of the kept arguments -/

theorem pick_sublist (b : Bool) : ∀ (ks : List Bool) (l : List String),
    (pick b ks l).Sublist l := by
  intro ks
  induction ks with
  | nil => intro l; simp [pick]
  | cons k ks ih =>
    intro l
    cases l with
    | nil => simp [pick]
    | cons a rest =>
      unfold pick
      by_cases hk : k = b
      · simpa [hk] using (ih rest)
      · simpa [hk] using (ih rest).cons a

theorem kept_sublist (m : NameMap) (s : Bool) (l : List String) :
    (kept m s l).Sublist l :=
  pick_sublist true _ l

/-- Filtering the kept arguments again keeps all of them. -/
theorem kept_idem (m : NameMap) : ∀ (l : List String) (s : Bool),
    kept m s (kept m s l) = kept m s l := by
  intro l
  induction l with
  | nil => intro s; simp [kept_nil]
  | cons a rest ih =>
    intro s
    cases s with
    | true => rw [kept_value, kept_value, ih false]
    | false =>
      cases hc : classify m a with
      | none => rw [kept_none m a rest hc, ih false]
      | some b => rw [kept_some m a rest b hc, kept_some m a _ b hc, ih b]

/-- An argument the filter recognises, put at the end of the list, is appended to the
kept arguments, whatever precedes it. -/
theorem kept_append_last (m : NameMap) (a : String) (ha : classify m a ≠ none) :
    ∀ (front : List String) (s : Bool),
      kept m s (front ++ [a]) = kept m s front ++ [a] := by
  intro front
  induction front with
  | nil =>
    intro s
    cases s with
    | true => simp [kept_value, kept_nil]
    | false =>
      cases hc : classify m a with
      | none => exact absurd hc ha
      | some b => simp [kept_some m a [] b hc, kept_nil]
  | cons x rest ih =>
    intro s
    cases s with
    | true => simp [kept_value, ih false]
    | false =>
      cases hc : classify m x with
      | none => simp [kept_none m x _ hc, ih false]
      | some b => simp [kept_some m x _ b hc, ih b]

/-! ## Claims about `filterArgs` on every command definition -/

/-- C10: `filterArgs` only deletes. On a non-empty argument list it returns a list
(it does not panic) that is a subsequence of `args`, starts with `args[0]`, and has
between 1 and `len(args)` elements; and a recognised value-taking flag that is the last
argument is appended alone to what the filter returns for the arguments before it, the
guarded read of `argsTmp[i+1]` adding nothing. -/
theorem filterArgs_only_deletes (args : List String) (cmd : Command) (verbose : Bool)
    (hne : args ≠ []) :
    (∃ out, filterArgs args cmd verbose = some out ∧ out.Sublist args ∧
        out.head? = args.head? ∧ 1 ≤ out.length ∧ out.length ≤ args.length) ∧
      (∀ flag : String, HasPrefix flag "-" = true →
        (buildFilter cmd).get (TrimLeft flag "-") = some true →
        ∃ out, filterArgs args cmd verbose = some out ∧
          filterArgs (args ++ [flag]) cmd verbose = some (out ++ [flag])) := by
  cases args with
  | nil => exact absurd rfl hne
  | cons a0 argsTmp =>
    have hsub := kept_sublist (buildFilter cmd) false argsTmp
    refine ⟨⟨a0 :: kept (buildFilter cmd) false argsTmp, filterArgs_eq a0 argsTmp cmd verbose,
      hsub.cons₂ a0, rfl, by simp, ?_⟩, ?_⟩
    · simpa using hsub.length_le
    · intro flag hp hg
      have hc : classify (buildFilter cmd) flag ≠ none := by
        simp [classify, hp, hg]
      refine ⟨a0 :: kept (buildFilter cmd) false argsTmp, filterArgs_eq a0 argsTmp cmd verbose, ?_⟩
      rw [List.cons_append, filterArgs_eq, kept_append_last _ flag hc argsTmp false]
      rfl

/-- The statement of C10 at a concrete argument list for craftc. -/
theorem filterArgs_only_deletes_witness :
    ["craftc", "--zz", "obj", "--cc"] ≠ [] ∧
      ((∃ out, filterArgs ["craftc", "--zz", "obj", "--cc"] craftc true = some out ∧
          out.Sublist ["craftc", "--zz", "obj", "--cc"] ∧
          out.head? = ["craftc", "--zz", "obj", "--cc"].head? ∧ 1 ≤ out.length ∧
          out.length ≤ ["craftc", "--zz", "obj", "--cc"].length) ∧
        (∀ flag : String, HasPrefix flag "-" = true →
          (buildFilter craftc).get (TrimLeft flag "-") = some true →
          ∃ out, filterArgs ["craftc", "--zz", "obj", "--cc"] craftc true = some out ∧
            filterArgs (["craftc", "--zz", "obj", "--cc"] ++ [flag]) craftc true
              = some (out ++ [flag]))) :=
  ⟨by decide, filterArgs_only_deletes ["craftc", "--zz", "obj", "--cc"] craftc true (by decide)⟩

/-- C9: `filterArgs` is idempotent. On a non-empty argument list, for every command
definition and all values `v` and `w` of `verbose`, `filterArgs` returns a list and
filtering that list again returns the same list. -/
theorem filterArgs_idempotent (args : List String) (cmd : Command) (v w : Bool)
    (hne : args ≠ []) :
    ∃ out, filterArgs args cmd v = some out ∧ filterArgs out cmd w = some out := by
  cases args with
  | nil => exact absurd rfl hne
  | cons a0 argsTmp =>
    refine ⟨a0 :: kept (buildFilter cmd) false argsTmp, filterArgs_eq a0 argsTmp cmd v, ?_⟩
    rw [filterArgs_eq, kept_idem]

/-- The statement of C9 at a concrete argument list for craftc. -/
theorem filterArgs_idempotent_witness :
    ["craftc", "-i", "--zz", "obj", "--cc", "gcc", "main.c", "--cfile"] ≠ [] ∧
      ∃ out, filterArgs ["craftc", "-i", "--zz", "obj", "--cc", "gcc", "main.c", "--cfile"]
          craftc true = some out ∧ filterArgs out craftc false = some out :=
  ⟨by decide, filterArgs_idempotent _ craftc true false (by decide)⟩

/-- C3: verbose mode only adds reporting, and the report is exact. On a non-empty
argument list the returned list is the same for both values of `verbose`; there is a
marking of the positions of `args[1:]` such that the returned list is `args[0]` followed
by the arguments at the marked positions, in order, and the arguments warned about with
`verbose = true` are those at the unmarked positions, in order; with `verbose = false`
nothing is warned about. -/
theorem filterArgs_verbose_report (args : List String) (cmd : Command) (hne : args ≠ []) :
    filterArgs args cmd true = filterArgs args cmd false ∧
      (∃ (a0 : String) (argsTmp : List String) (mask : List Bool),
        args = a0 :: argsTmp ∧ mask.length = argsTmp.length ∧
        filterArgs args cmd true = some (a0 :: pick true mask argsTmp) ∧
        filterArgsWarnings args cmd true = some (pick false mask argsTmp)) ∧
      filterArgsWarnings args cmd false = some [] := by
  cases args with
  | nil => exact absurd rfl hne
  | cons a0 argsTmp =>
    refine ⟨by rw [filterArgs_eq, filterArgs_eq], ⟨a0, argsTmp,
      keepMask (buildFilter cmd) false argsTmp, rfl, keepMask_length _ _ _, ?_, ?_⟩, ?_⟩
    · rw [filterArgs_eq]; rfl
    · rw [filterArgsWarnings_eq]; rfl
    · rw [filterArgsWarnings_eq]; rfl

/-- The statement of C3 at a concrete argument list for craftc. -/
theorem filterArgs_verbose_report_witness :
    ["craftc", "-i", "--zz", "obj", "--cc", "gcc", "main.c"] ≠ [] ∧
      (filterArgs ["craftc", "-i", "--zz", "obj", "--cc", "gcc", "main.c"] craftc true
          = filterArgs ["craftc", "-i", "--zz", "obj", "--cc", "gcc", "main.c"] craftc false ∧
        (∃ (a0 : String) (argsTmp : List String) (mask : List Bool),
          ["craftc", "-i", "--zz", "obj", "--cc", "gcc", "main.c"] = a0 :: argsTmp ∧
          mask.length = argsTmp.length ∧
          filterArgs ["craftc", "-i", "--zz", "obj", "--cc", "gcc", "main.c"] craftc true
            = some (a0 :: pick true mask argsTmp) ∧
          filterArgsWarnings ["craftc", "-i", "--zz", "obj", "--cc", "gcc", "main.c"] craftc true
            = some (pick false mask argsTmp)) ∧
        filterArgsWarnings ["craftc", "-i", "--zz", "obj", "--cc", "gcc", "main.c"] craftc false
          = some []) :=
  ⟨by decide, filterArgs_verbose_report _ craftc (by decide)⟩

/-! ## The contents of the map of recognised names -/

theorem foldl_snoc_eq (l : List Flag) : ∀ acc : List Flag,
    l.foldl (fun acc2 f => acc2 ++ [f]) acc = acc ++ l := by
  induction l with
  | nil => intro acc; simp
  | cons f rest ih => intro acc; simp [ih]

theorem collectFlags_eq (cmd : Command) :
    collectFlags cmd =
      (cmd.Commands.foldl (fun (m : NameMap) c => m.set c.Name false) [],
        declaredFlags cmd) := by
  unfold collectFlags declaredFlags
  simp only [foldl_snoc_eq, List.nil_append]
  generalize cmd.Flags = init
  generalize ([] : NameMap) = m
  induction cmd.Commands generalizing init m with
  | nil => simp
  | cons c cs ih => simp [ih]

theorem get_set (m : NameMap) (k k2 : String) (v : Bool) :
    (m.set k v).get k2 = if k2 = k then some v else m.get k2 := by
  unfold NameMap.set NameMap.get
  by_cases h : k2 = k
  · simp [h, List.lookup_cons]
  · have : (k2 == k) = false := by simpa using h
    simp [h, List.lookup_cons, this]

theorem get_names (b : Bool) (names : List String) : ∀ (m : NameMap) (k : String),
    (names.foldl (fun m2 n => m2.set n b) m).get k =
      if k ∈ names then some b else m.get k := by
  induction names with
  | nil => intro m k; simp
  | cons n rest ih =>
    intro m k
    rw [List.foldl_cons, ih, get_set]
    by_cases h1 : k ∈ rest
    · simp [h1]
    · by_cases h2 : k = n
      · simp [h1, h2]
      · simp [h1, h2]

theorem get_flagEntries (m : NameMap) (f : Flag) (k : String) :
    (flagEntries m f).get k =
      if k ∈ f.Names then some (decide (f.kind ≠ FlagKind.BoolFlag)) else m.get k := by
  unfold flagEntries
  cases hk : f.kind <;> simp [get_names]

theorem get_commandEntries_aux (cs : List SubCommand) : ∀ (m : NameMap) (k : String),
    (cs.foldl (fun m2 c => m2.set c.Name false) m).get k =
      if k ∈ cs.map (fun c => c.Name) then some false else m.get k := by
  induction cs with
  | nil => intro m k; simp
  | cons c rest ih =>
    intro m k
    rw [List.foldl_cons, ih, get_set]
    by_cases h1 : k ∈ rest.map (fun c => c.Name)
    · simp [h1]
    · by_cases h2 : k = c.Name
      · simp [h2]
      · simp [h1, h2]

theorem get_commandEntries (cmd : Command) (k : String) :
    NameMap.get (cmd.Commands.foldl (fun (m : NameMap) c => m.set c.Name false) []) k =
      if k ∈ commandNames cmd then some false else none := by
  unfold commandNames
  rw [get_commandEntries_aux]
  rfl

/-- A lookup in the map after the flag loop finds the last flag that declares the name,
or else what the map held before the loop. -/
theorem get_foldl_flagEntries (fl : List Flag) : ∀ (m : NameMap) (k : String) (b : Bool),
    (fl.foldl flagEntries m).get k = some b →
      (∃ f ∈ fl, k ∈ f.Names ∧ b = decide (f.kind ≠ FlagKind.BoolFlag)) ∨
        m.get k = some b := by
  induction fl with
  | nil => intro m k b h; exact Or.inr h
  | cons f rest ih =>
    intro m k b h
    rw [List.foldl_cons] at h
    rcases ih _ k b h with ⟨g, hg, hk, hb⟩ | h2
    · exact Or.inl ⟨g, List.mem_cons_of_mem _ hg, hk, hb⟩
    · rw [get_flagEntries] at h2
      by_cases hk : k ∈ f.Names
      · rw [if_pos hk] at h2
        exact Or.inl ⟨f, List.mem_cons_self _ _, hk, (Option.some.inj h2).symm⟩
      · rw [if_neg hk] at h2
        exact Or.inr h2

theorem get_foldl_flagEntries_isSome (fl : List Flag) : ∀ (m : NameMap) (k : String),
    ((∃ f ∈ fl, k ∈ f.Names) ∨ m.get k ≠ none) → (fl.foldl flagEntries m).get k ≠ none := by
  induction fl with
  | nil =>
    intro m k h
    rcases h with ⟨f, hf, _⟩ | h
    · simp at hf
    · exact h
  | cons f rest ih =>
    intro m k h
    rw [List.foldl_cons]
    apply ih
    by_cases hr : ∃ g ∈ rest, k ∈ g.Names
    · exact Or.inl hr
    · right
      rw [get_flagEntries]
      by_cases hk : k ∈ f.Names
      · simp [hk]
      · rw [if_neg hk]
        rcases h with ⟨g, hg, hkg⟩ | h
        · rcases List.mem_cons.mp hg with rfl | hg2
          · exact absurd hkg hk
          · exact absurd ⟨g, hg2, hkg⟩ hr
        · exact h

theorem mem_boolFlagKeys (cmd : Command) (k : String) :
    k ∈ boolFlagKeys cmd ↔
      ∃ f ∈ declaredFlags cmd, f.kind = FlagKind.BoolFlag ∧ k ∈ f.Names := by
  simp [boolFlagKeys, List.mem_flatMap, and_assoc]

theorem mem_valueFlagKeys (cmd : Command) (k : String) :
    k ∈ valueFlagKeys cmd ↔
      ∃ f ∈ declaredFlags cmd, f.kind ≠ FlagKind.BoolFlag ∧ k ∈ f.Names := by
  simp [valueFlagKeys, List.mem_flatMap, and_assoc]

/-- Every entry of the map of recognised names comes from a declaration: value `true`
from a value-taking flag, value `false` from a boolean flag or a subcommand. -/
theorem buildFilter_sound (cmd : Command) (k : String) (b : Bool)
    (h : (buildFilter cmd).get k = some b) :
    (b = true ∧ k ∈ valueFlagKeys cmd) ∨
      (b = false ∧ (k ∈ boolFlagKeys cmd ∨ k ∈ commandNames cmd)) := by
  unfold buildFilter at h
  rw [collectFlags_eq] at h
  rcases get_foldl_flagEntries _ _ k b h with ⟨f, hf, hk, hb⟩ | h2
  · by_cases hkind : f.kind = FlagKind.BoolFlag
    · right
      refine ⟨by simp [hb, hkind], Or.inl ?_⟩
      exact (mem_boolFlagKeys cmd k).mpr ⟨f, hf, hkind, hk⟩
    · left
      refine ⟨by simp [hb, hkind], ?_⟩
      exact (mem_valueFlagKeys cmd k).mpr ⟨f, hf, hkind, hk⟩
  · rw [get_commandEntries] at h2
    by_cases hc : k ∈ commandNames cmd
    · rw [if_pos hc] at h2
      exact Or.inr ⟨(Option.some.inj h2).symm, Or.inr hc⟩
    · rw [if_neg hc] at h2
      exact absurd h2 (by simp)

/-- Every declared name is in the map of recognised names. -/
theorem buildFilter_complete (cmd : Command) (k : String)
    (h : k ∈ valueFlagKeys cmd ∨ k ∈ boolFlagKeys cmd ∨ k ∈ commandNames cmd) :
    (buildFilter cmd).get k ≠ none := by
  unfold buildFilter
  rw [collectFlags_eq]
  apply get_foldl_flagEntries_isSome
  rcases h with h | h | h
  · obtain ⟨f, hf, _, hk⟩ := (mem_valueFlagKeys cmd k).mp h
    exact Or.inl ⟨f, hf, hk⟩
  · obtain ⟨f, hf, _, hk⟩ := (mem_boolFlagKeys cmd k).mp h
    exact Or.inl ⟨f, hf, hk⟩
  · right
    rw [get_commandEntries, if_pos h]
    simp

/-- A string without comma and space is left as it is by the cut of `FlagNames`. -/
theorem cutCommaWhitespace_eq (cs : List Char) (h : ∀ c ∈ cs, c ≠ ',' ∧ c ≠ ' ') :
    cutCommaWhitespace false cs = cs := by
  induction cs with
  | nil => rfl
  | cons c rest ih =>
    have hc := h c (List.mem_cons_self _ _)
    have hrest := ih (fun x hx => h x (List.mem_cons_of_mem _ hx))
    simp [cutCommaWhitespace, hc.1, hc.2, hrest]

theorem flagNames_eq (name : String) (aliases : List String)
    (h : ∀ n ∈ name :: aliases, ∀ c ∈ n.data, c ≠ ',' ∧ c ≠ ' ') :
    FlagNames name aliases = name :: aliases := by
  unfold FlagNames
  have hmap : ∀ l : List String, (∀ n ∈ l, ∀ c ∈ n.data, c ≠ ',' ∧ c ≠ ' ') →
      l.map (fun part => String.mk (cutCommaWhitespace false part.data)) = l := by
    intro l
    induction l with
    | nil => intro _; rfl
    | cons n rest ih =>
      intro hl
      rw [List.map_cons, ih (fun x hx => hl x (List.mem_cons_of_mem _ hx)),
        cutCommaWhitespace_eq n.data (hl n (List.mem_cons_self _ _))]
  exact hmap _ h

theorem flatMap_names_eq (fl : List Flag)
    (h : ∀ f ∈ fl, ∀ n ∈ f.Name :: f.Aliases, ∀ c ∈ n.data, c ≠ ',' ∧ c ≠ ' ') :
    fl.flatMap Flag.Names = fl.flatMap (fun f => f.Name :: f.Aliases) := by
  induction fl with
  | nil => rfl
  | cons f rest ih =>
    rw [List.flatMap_cons, List.flatMap_cons, ih (fun g hg => h g (List.mem_cons_of_mem _ hg))]
    unfold Flag.Names
    rw [flagNames_eq f.Name f.Aliases (h f (List.mem_cons_self _ _))]

/-- Where no declared name contains a comma or a space, `Names()` returns the names as
they are declared. -/
theorem keys_eq_names (cmd : Command) (hcut : NoCommaSpaceName cmd) :
    valueFlagKeys cmd = valueFlagNames cmd ∧ boolFlagKeys cmd = boolFlagNames cmd := by
  constructor
  · unfold valueFlagKeys valueFlagNames
    apply flatMap_names_eq
    intro f hf n hn
    apply hcut n
    rw [List.mem_append]
    left
    unfold valueFlagNames
    exact List.mem_flatMap.mpr ⟨f, hf, hn⟩
  · unfold boolFlagKeys boolFlagNames
    apply flatMap_names_eq
    intro f hf n hn
    apply hcut n
    rw [List.mem_append]
    right
    unfold boolFlagNames
    exact List.mem_flatMap.mpr ⟨f, hf, hn⟩

/-! ## Argument lists without unknown arguments -/

theorem hasPrefix_dashes (d n : String) (hd : d = "-" ∨ d = "--") :
    HasPrefix (d ++ n) "-" = true := by
  rcases hd with rfl | rfl <;> simp [HasPrefix, String.data_append, List.isPrefixOf]

theorem trimLeft_dashes (d n : String) (hd : d = "-" ∨ d = "--")
    (hn : HasPrefix n "-" = false) : TrimLeft (d ++ n) "-" = n := by
  obtain ⟨cs⟩ := n
  have hfun : (fun c => List.contains "-".data c) = (fun c => decide (c = '-')) := by
    funext c
    simp [List.contains]
  have hcs : List.dropWhile (fun c => decide (c = '-')) cs = cs := by
    cases cs with
    | nil => rfl
    | cons c rest =>
      have hc : c ≠ '-' := by
        intro hc
        simp [HasPrefix, List.isPrefixOf, hc] at hn
      rw [List.dropWhile_cons]
      simp [hc]
  unfold TrimLeft
  rw [hfun, String.data_append]
  rcases hd with rfl | rfl
  · show String.mk (List.dropWhile _ ('-' :: cs)) = _
    rw [List.dropWhile_cons]
    simp [hcs]
  · show String.mk (List.dropWhile _ ('-' :: '-' :: cs)) = _
    rw [List.dropWhile_cons]
    simp only [decide_True, if_true]
    rw [List.dropWhile_cons]
    simp [hcs]

/-- On a definition without clashing names, without names that begin with a dash and
without a comma or space in a flag name, every argument list without unknown arguments
is kept whole. -/
theorem kept_recognized (cmd : Command) (hclash : NoClash cmd) (hdash : NoDashName cmd)
    (hcut : NoCommaSpaceName cmd) (l : List String) (hl : Recognized cmd l) :
    kept (buildFilter cmd) false l = l := by
  obtain ⟨hkv, hkb⟩ := keys_eq_names cmd hcut
  have hvalue : ∀ n ∈ valueFlagNames cmd, (buildFilter cmd).get n = some true := by
    intro n hn
    cases hg : (buildFilter cmd).get n with
    | none => exact absurd hg (buildFilter_complete cmd n (Or.inl (hkv ▸ hn)))
    | some b =>
      rcases buildFilter_sound cmd n b hg with ⟨hb, _⟩ | ⟨_, hb | hc⟩
      · rw [hb]
      · exact absurd (hkb ▸ hb) (hclash n hn).1
      · exact absurd hc (hclash n hn).2
  have hbool : ∀ n ∈ boolFlagNames cmd, (buildFilter cmd).get n = some false := by
    intro n hn
    cases hg : (buildFilter cmd).get n with
    | none => exact absurd hg (buildFilter_complete cmd n (Or.inr (Or.inl (hkb ▸ hn))))
    | some b =>
      rcases buildFilter_sound cmd n b hg with ⟨_, hv⟩ | ⟨hb, _⟩
      · exact absurd hn (hclash n (hkv ▸ hv)).1
      · rw [hb]
  induction hl with
  | done => rfl
  | boolFlag d n rest hd hn _ ih =>
    have hnd : HasPrefix n "-" = false := hdash n (by simp [hn])
    have hc : classify (buildFilter cmd) (d ++ n) = some false := by
      simp [classify, hasPrefix_dashes d n hd, trimLeft_dashes d n hd hnd, hbool n hn]
    rw [kept_some _ _ _ false hc, ih]
  | valueFlag d n value rest hd hn _ ih =>
    have hnd : HasPrefix n "-" = false := hdash n (by simp [hn])
    have hc : classify (buildFilter cmd) (d ++ n) = some true := by
      simp [classify, hasPrefix_dashes d n hd, trimLeft_dashes d n hd hnd, hvalue n hn]
    rw [kept_some _ _ _ true hc, kept_value, ih]
  | valueFlagLast d n hd hn =>
    have hnd : HasPrefix n "-" = false := hdash n (by simp [hn])
    have hc : classify (buildFilter cmd) (d ++ n) = some true := by
      simp [classify, hasPrefix_dashes d n hd, trimLeft_dashes d n hd hnd, hvalue n hn]
    rw [kept_some _ _ _ true hc, kept_nil]
  | command n rest hn _ ih =>
    have hnd : HasPrefix n "-" = false := hdash n (by simp [hn])
    cases hg : (buildFilter cmd).get n with
    | none => exact absurd hg (buildFilter_complete cmd n (Or.inr (Or.inr hn)))
    | some b =>
      have hc : classify (buildFilter cmd) n = some false := by
        simp [classify, hnd, hg]
      rw [kept_some _ _ _ false hc, ih]

/-- C1, at the failing input: `filterArgs` keeps `--obj`, although the text after its
dashes is no declared flag name or alias, no argument of the list is a value-taking flag
that it could follow, and it begins with a dash; it keeps the bare word `cc` as well,
which is no subcommand name. -/
theorem filterArgs_keeps_unknown :
    filterArgs ["craftc", "--obj"] craftc false = some ["craftc", "--obj"] ∧
      HasPrefix "--obj" "-" = true ∧
      TrimLeft "--obj" "-" ∉ boolFlagNames craftc ++ valueFlagNames craftc ∧
      (∀ x ∈ ["craftc", "--obj"], TrimLeft x "-" ∉ valueFlagNames craftc) ∧
      filterArgs ["craftc", "cc"] craftc false = some ["craftc", "cc"] ∧
      HasPrefix "cc" "-" = false ∧ "cc" ∉ commandNames craftc := by
  decide

/-- C8, at the failing input: `--cc=gcc` stands in flag position after the subcommand
name and names the declared flag `cc`, and `filterArgs` drops it, reporting it as an
unknown argument in verbose mode. -/
theorem filterArgs_drops_attached_value :
    "cc" ∈ valueFlagNames craftc ∧ "--cc=gcc" = "--" ++ "cc" ++ "=" ++ "gcc" ∧
      filterArgs ["craftc", "obj", "--cc=gcc"] craftc false = some ["craftc", "obj"] ∧
      filterArgsWarnings ["craftc", "obj", "--cc=gcc"] craftc true = some ["--cc=gcc"] := by
  decide

/-! ## The command table, the actions and the exit status -/

/-- C5: the command table declares exactly the four subcommands `obj`, `objs`,
`static-lib` and `exe`; each declares `cc` and `objdir` as required and `cflags` as not
required; `obj` declares `cfile` as required, the other three declare `cfiles` as
required; `static-lib` declares `lib-path` and `exe` declares `exe-path` as required;
`exe` declares `lib-paths` and `ldflags` as not required. -/
theorem craftc_command_table :
    commandNames craftc = ["obj", "objs", "static-lib", "exe"] ∧
      (∀ sub ∈ commandNames craftc,
        requiredOf craftc sub "cc" = some true ∧ requiredOf craftc sub "objdir" = some true ∧
        requiredOf craftc sub "cflags" = some false) ∧
      requiredOf craftc "obj" "cfile" = some true ∧
      (∀ sub ∈ ["objs", "static-lib", "exe"], requiredOf craftc sub "cfiles" = some true) ∧
      requiredOf craftc "static-lib" "lib-path" = some true ∧
      requiredOf craftc "exe" "exe-path" = some true ∧
      requiredOf craftc "exe" "lib-paths" = some false ∧
      requiredOf craftc "exe" "ldflags" = some false := by
  decide

theorem ran_actionOf (run : Cmd → Option String) (osArgs : List String)
    (cmd : ParsedCommand) (value : Cmd) : (actionOf run osArgs cmd value).ran = [value] := by
  unfold actionOf runCmd
  cases run value with
  | none => rfl
  | some err =>
    cases osArgs with
    | nil => rfl
    | cons a0 rest =>
      cases rest with
      | nil => rfl
      | cons a1 rest2 => rfl

/-- C6: each subcommand action calls `run` on exactly one command value, once, and the
fields of that value are the parsed flag values: `obj` builds an `object` from `cc`,
`cfile`, `objdir` and `cflags`; `objs` an `objects` from `cc`, `cfiles`, `objdir` and
`cflags`; `static-lib` a `staticLib` with also `libPath` from `lib-path`; `exe` an
`executable` with also `ldflags`, `exePath` from `exe-path` and `libPaths` from
`lib-paths`; in all four `forceBuild` is the value of the flag `f`, which the command
table declares as the global boolean flag with alias `force`. -/
theorem actions_mirror_flags (run : Cmd → Option String) (osArgs : List String)
    (ctx : Context) (cmd : ParsedCommand) :
    (∃ o : object, (objAction run osArgs ctx cmd).ran = [Cmd.obj o] ∧
        o.cc = cmd.StringOf "cc" ∧ o.cfile = cmd.StringOf "cfile" ∧
        o.objdir = cmd.StringOf "objdir" ∧ o.cflags = cmd.StringOf "cflags" ∧
        o.forceBuild = cmd.BoolOf "f") ∧
      (∃ o : objects, (objsAction run osArgs ctx cmd).ran = [Cmd.objs o] ∧
        o.cc = cmd.StringOf "cc" ∧ o.cfiles = cmd.StringOf "cfiles" ∧
        o.objdir = cmd.StringOf "objdir" ∧ o.cflags = cmd.StringOf "cflags" ∧
        o.forceBuild = cmd.BoolOf "f") ∧
      (∃ o : staticLib, (staticLibAction run osArgs ctx cmd).ran = [Cmd.sl o] ∧
        o.cc = cmd.StringOf "cc" ∧ o.cfiles = cmd.StringOf "cfiles" ∧
        o.objdir = cmd.StringOf "objdir" ∧ o.cflags = cmd.StringOf "cflags" ∧
        o.libPath = cmd.StringOf "lib-path" ∧ o.forceBuild = cmd.BoolOf "f") ∧
      (∃ o : executable, (exeAction run osArgs ctx cmd).ran = [Cmd.exe o] ∧
        o.cc = cmd.StringOf "cc" ∧ o.cfiles = cmd.StringOf "cfiles" ∧
        o.objdir = cmd.StringOf "objdir" ∧ o.cflags = cmd.StringOf "cflags" ∧
        o.ldflags = cmd.StringOf "ldflags" ∧ o.exePath = cmd.StringOf "exe-path" ∧
        o.libPaths = cmd.StringOf "lib-paths" ∧ o.forceBuild = cmd.BoolOf "f") ∧
      (∃ f ∈ craftc.Flags, f.kind = FlagKind.BoolFlag ∧ f.Names = ["f", "force"]) := by
  refine ⟨⟨_, ran_actionOf _ _ _ _, rfl, rfl, rfl, rfl, rfl⟩,
    ⟨_, ran_actionOf _ _ _ _, rfl, rfl, rfl, rfl, rfl⟩,
    ⟨_, ran_actionOf _ _ _ _, rfl, rfl, rfl, rfl, rfl, rfl⟩,
    ⟨_, ran_actionOf _ _ _ _, rfl, rfl, rfl, rfl, rfl, rfl, rfl, rfl⟩, ?_⟩
  decide

/-- C4: the exit status follows the command's result. With `os.Args` holding the program
name and the subcommand, `runCmd` writes one line that contains the error text to
standard error and exits with status 1 if and only if `cmd.run()` returns an error;
without an error it writes nothing and returns, the action returns `nil`, and `main`,
whose call of `Run` then returns what the action returned, ends with status 0; and
whenever the parser's `Run` returns an error, `main` writes an error line and exits with
status 1. -/
theorem runCmd_exit_status (run : Cmd → Option String) (osArgs : List String) (cmd : Cmd)
    (hargs : 2 ≤ osArgs.length) :
    (((∃ line, (runCmd run osArgs cmd).stderr = [line]) ∧
          (runCmd run osArgs cmd).outcome = Outcome.exited 1) ↔ run cmd ≠ none) ∧
      (∀ err, run cmd = some err →
        ∃ front, (runCmd run osArgs cmd).stderr = [front ++ err ++ "\n"]) ∧
      (run cmd = none →
        (runCmd run osArgs cmd).stderr = [] ∧
        (runCmd run osArgs cmd).outcome = Outcome.returned () ∧
        ∀ parsed : ParsedCommand,
          (actionOf run osArgs parsed cmd).outcome = Outcome.returned none ∧
          (actionOf run osArgs parsed cmd).stderr = [] ∧
          exitStatus (mainEnd (actionOf run osArgs parsed cmd)).outcome = 0) ∧
      (∀ (parserRun : Run (Option String)) (err : String),
        parserRun.outcome = Outcome.returned (some err) →
        (mainEnd parserRun).stderr = parserRun.stderr ++ ["❌ " ++ err ++ "\n"] ∧
        (mainEnd parserRun).outcome = Outcome.exited 1 ∧
        exitStatus (mainEnd parserRun).outcome = 1) := by
  obtain ⟨a0, a1, rest, rfl⟩ : ∃ a0 a1 rest, osArgs = a0 :: a1 :: rest := by
    match osArgs, hargs with
    | a0 :: a1 :: rest, _ => exact ⟨a0, a1, rest, rfl⟩
  refine ⟨?_, ?_, ?_, ?_⟩
  · cases hr : run cmd with
    | none => simp [runCmd, hr]
    | some err => simp [runCmd, hr]
  · intro err hr
    exact ⟨"❌ " ++ a0 ++ ": cmd `" ++ a1 ++ "` failed: ", by simp [runCmd, hr]⟩
  · intro hr
    refine ⟨by simp [runCmd, hr], by simp [runCmd, hr], ?_⟩
    intro parsed
    simp [actionOf, runCmd, hr, mainEnd, exitStatus]
  · intro parserRun err hp
    simp [mainEnd, hp, exitStatus]

/-- The first part of C4 at a failing `obj` command. -/
theorem runCmd_exit_status_witness :
    2 ≤ ["craftc", "obj"].length ∧
      (((∃ line, (runCmd (fun _ => some "exit status 1") ["craftc", "obj"]
            (Cmd.obj ⟨⟨0⟩, "cc", "a.c", "out", "", false⟩)).stderr = [line]) ∧
          (runCmd (fun _ => some "exit status 1") ["craftc", "obj"]
            (Cmd.obj ⟨⟨0⟩, "cc", "a.c", "out", "", false⟩)).outcome = Outcome.exited 1) ↔
        (fun _ => some "exit status 1" : Cmd → Option String)
          (Cmd.obj ⟨⟨0⟩, "cc", "a.c", "out", "", false⟩) ≠ none) :=
  ⟨by decide,
    (runCmd_exit_status (fun _ => some "exit status 1") ["craftc", "obj"]
      (Cmd.obj ⟨⟨0⟩, "cc", "a.c", "out", "", false⟩) (by decide)).1⟩

/-! ## The staleness rule -/

theorem any_missing_eq_false (fs : FileTimes) (inputs : List String)
    (h : ∀ i ∈ inputs, fs i ≠ none) : inputs.any (fun i => (fs i).isNone) = false := by
  rw [List.any_eq_false]
  intro i hi
  simpa using h i hi

/-- The maximum of the input times is at most `t` exactly when every input time is. -/
theorem maxTime_le_iff (fs : FileTimes) (inputs : List String) (tMax t : Int)
    (h : (inputs.filterMap fs).max? = some tMax) :
    tMax ≤ t ↔ ∀ i ∈ inputs, ∀ ti, fs i = some ti → ti ≤ t := by
  rw [List.max?_le_iff (fun a b c => max_le_iff) h]
  constructor
  · intro hall i hi ti hti
    exact hall ti (List.mem_filterMap.mpr ⟨i, hi, hti⟩)
  · intro hall b hb
    obtain ⟨i, hi, hti⟩ := List.mem_filterMap.mp hb
    exact hall i hi b hti

/-- The freshness test of `isStale`, when every input and the output exist. -/
theorem isStale_exists (fs : FileTimes) (output : String) (inputs : List String)
    (tOut : Int) (hin : ∀ i ∈ inputs, fs i ≠ none) (hout : fs output = some tOut) :
    isStale fs output inputs false =
      Except.ok (decide (∃ i ∈ inputs, ∃ t, fs i = some t ∧ tOut < t)) := by
  unfold isStale
  simp only [Bool.false_eq_true, if_false, any_missing_eq_false fs inputs hin, hout]
  cases hm : (inputs.filterMap fs).max? with
  | none =>
    have hnil : inputs.filterMap fs = [] := List.max?_eq_none_iff.mp hm
    have hno : ¬ ∃ i ∈ inputs, ∃ t, fs i = some t ∧ tOut < t := by
      rintro ⟨i, hi, t, hti, _⟩
      have : t ∈ inputs.filterMap fs := List.mem_filterMap.mpr ⟨i, hi, hti⟩
      rw [hnil] at this
      exact absurd this (List.not_mem_nil t)
    simp [hno]
  | some tMax =>
    have hle := maxTime_le_iff fs inputs tMax tOut hm
    by_cases hx : tMax ≤ tOut
    · have hno : ¬ ∃ i ∈ inputs, ∃ t, fs i = some t ∧ tOut < t := by
        rintro ⟨i, hi, t, hti, hlt⟩
        exact absurd (hle.mp hx i hi t hti) (not_le.mpr hlt)
      simp [hx, hno]
    · have hyes : ∃ i ∈ inputs, ∃ t, fs i = some t ∧ tOut < t := by
        by_contra hcon
        apply hx
        rw [hle]
        intro i hi t hti
        by_contra hlt
        exact hcon ⟨i, hi, t, hti, not_le.mp hlt⟩
      simp [hx, hyes]

/-- C7: the freshness rule of `isStale`. With `force` the result is stale; without it,
a missing input is a `MissingInputError`; when all inputs exist, a missing output is
stale; and when the output exists too, the result is fresh exactly when the time of the
output is `>=` the time of every input (that is `>=` their maximum, a tie being fresh),
and stale exactly when the time of the output is smaller than the time of some input
(smaller than the maximum). -/
theorem isStale_rule (fs : FileTimes) (output : String) (inputs : List String) :
    isStale fs output inputs true = Except.ok true ∧
      ((∃ i ∈ inputs, fs i = none) →
        isStale fs output inputs false = Except.error StaleError.MissingInputError) ∧
      ((∀ i ∈ inputs, fs i ≠ none) → fs output = none →
        isStale fs output inputs false = Except.ok true) ∧
      (∀ tOut : Int, (∀ i ∈ inputs, fs i ≠ none) → fs output = some tOut →
        (isStale fs output inputs false = Except.ok false ↔
          ∀ i ∈ inputs, ∀ t, fs i = some t → t ≤ tOut) ∧
        (isStale fs output inputs false = Except.ok true ↔
          ∃ i ∈ inputs, ∃ t, fs i = some t ∧ tOut < t) ∧
        (∀ tMax : Int, (inputs.filterMap fs).max? = some tMax →
          (isStale fs output inputs false = Except.ok false ↔ tOut ≥ tMax) ∧
          (isStale fs output inputs false = Except.ok true ↔ tOut < tMax))) := by
  refine ⟨by simp [isStale], ?_, ?_, ?_⟩
  · rintro ⟨i, hi, hnone⟩
    have hany : inputs.any (fun i => (fs i).isNone) = true :=
      List.any_eq_true.mpr ⟨i, hi, by simp [hnone]⟩
    simp [isStale, hany]
  · intro hin hout
    simp [isStale, any_missing_eq_false fs inputs hin, hout]
  · intro tOut hin hout
    have hfresh : (isStale fs output inputs false = Except.ok false ↔
        ∀ i ∈ inputs, ∀ t, fs i = some t → t ≤ tOut) := by
      rw [isStale_exists fs output inputs tOut hin hout]
      constructor
      · intro h i hi t hti
        by_contra hlt
        have hyes : ∃ i ∈ inputs, ∃ t, fs i = some t ∧ tOut < t :=
          ⟨i, hi, t, hti, not_le.mp hlt⟩
        simp [hyes] at h
      · intro h
        have hno : ¬ ∃ i ∈ inputs, ∃ t, fs i = some t ∧ tOut < t := by
          rintro ⟨i, hi, t, hti, hlt⟩
          exact absurd (h i hi t hti) (not_le.mpr hlt)
        simp [hno]
    have hstale : (isStale fs output inputs false = Except.ok true ↔
        ∃ i ∈ inputs, ∃ t, fs i = some t ∧ tOut < t) := by
      rw [isStale_exists fs output inputs tOut hin hout]
      constructor
      · intro h
        by_contra hno
        simp [hno] at h
      · intro h
        simp [h]
    refine ⟨hfresh, hstale, ?_⟩
    intro tMax hm
    have hle := maxTime_le_iff fs inputs tMax tOut hm
    refine ⟨hfresh.trans hle.symm, hstale.trans ?_⟩
    constructor
    · rintro ⟨i, hi, t, hti, hlt⟩
      by_contra hx
      exact absurd (hle.mp (not_lt.mp hx) i hi t hti) (not_le.mpr hlt)
    · intro hlt
      by_contra hno
      apply not_le.mpr hlt
      rw [hle]
      intro i hi t hti
      by_contra hx
      exact hno ⟨i, hi, t, hti, not_le.mp hx⟩

/-- The last part of C7 on a filesystem where the output is as new as its newest input. -/
theorem isStale_rule_witness :
    isStale sampleTimes "out.o" ["a.c", "b.c"] false = Except.ok false ∧
      ((isStale sampleTimes "out.o" ["a.c", "b.c"] false = Except.ok false ↔
          (20 : Int) ≥ 20) ∧
        (isStale sampleTimes "out.o" ["a.c", "b.c"] false = Except.ok true ↔
          (20 : Int) < 20)) :=
  ⟨by rfl,
    ((isStale_rule sampleTimes "out.o" ["a.c", "b.c"]).2.2.2 20 (by decide) (by rfl)).2.2
      20 (by rfl)⟩

end Craftc
